import Mathlib

/-!
A shallow embedding of the `ep` distributed dataflow runtime core
(runner contract, exchange operator, distributer rendezvous, framed codec,
short-circuit channel), together with theorems settling the spec claims.

Datasets are opaque to the core, so they are modelled as tokens with an id.
Channels carried by goroutines are modelled as the lists of values that flow
over them; errors are modelled by their message string, since the code only
ever inspects `err.Error()`.
-/

namespace Ep

/-- A dataset is an opaque columnar batch; the core never inspects it, so we
model it as a token carrying an id. -/
structure Dataset where
  id : Nat
deriving DecidableEq

/-- Column types declared by a runner's `Returns()`; `Wildcard` is the
sentinel meaning "determined at runtime". -/
inductive EpType
  | Wildcard
  | Concrete (name : String)
deriving DecidableEq

/-- The payload carried inside a `dataReq` envelope: either a dataset or an
`errMsg{Msg}` error carrier (`errMsg.Error()` returns `Msg`). -/
inductive Payload
  | data (d : Dataset)
  | err (msg : String)
deriving DecidableEq

/-- The `dataReq{Payload}` envelope framed on every data connection. -/
structure DataReq where
  payload : Payload
deriving DecidableEq

/-- A Go value handed to `EncodeAll`: either a dataset or an error value
identified by its message (`io.EOF` is the error whose message is "EOF"). -/
inductive EncInput
  | dataset (d : Dataset)
  | errVal (msg : String)
deriving DecidableEq

/-- `EncodeAll` wraps error inputs as `errMsg` envelopes carrying the
error's message; datasets pass through unwrapped. -/
def EncInput.toPayload : EncInput → Payload
  | .dataset d => .data d
  | .errVal m => .err m

/-! ### PassThrough runner -/

/-- The loop body of `passthrough.Run`: `for data := range inp { out <- data }`.
The input channel is modelled by the list of datasets delivered before close;
the result is the list sent on `out`. -/
def passthroughLoop : List Dataset → List Dataset
  | [] => []
  | d :: rest => d :: passthroughLoop rest

/-- `passthrough.Run`: forwards the input stream and returns a nil error. -/
def passthroughRun (inp : List Dataset) : List Dataset × Option String :=
  (passthroughLoop inp, none)

/-- `passthrough.Returns()`. -/
def passthroughReturns : List EpType := [EpType.Wildcard]

/-! ### Exchange: send side -/

/-- Routing policy constants from `exchange.go`. -/
def sendGather : Nat := 1

def sendScatter : Nat := 2

def sendBroadcast : Nat := 3

def sendPartition : Nat := 4

/-- Message of Go's `io.ErrClosedPipe`. -/
def errClosedPipe : String := "io: read/write on closed pipe"

/-- The send-side state of the `exchange` struct. Each encoder is modelled by
the list of `dataReq` envelopes it has received, in order; `encsNext` is the
outbound round-robin cursor. (The decoder-side fields `decs`/`decsNext` are
threaded explicitly through `decodeNext`/`receiveLoop` below.) -/
structure Exchange where
  UID : String
  SendTo : Nat
  encs : List (List DataReq)
  encsNext : Nat
deriving DecidableEq

/-- `exchange.EncodeNext`: advance the outbound cursor modulo the encoder
count and encode one `dataReq` envelope to that single encoder; with no
encoders, fail with `io.ErrClosedPipe`. -/
def EncodeNext (ex : Exchange) (e : Payload) : Exchange × Option String :=
  if ex.encs.length = 0 then (ex, some errClosedPipe)
  else
    let next := (ex.encsNext + 1) % ex.encs.length
    ({ ex with encsNext := next,
               encs := ex.encs.set next (ex.encs.getD next [] ++ [⟨e⟩]) },
     none)

/-- `exchange.EncodeAll`: wrap an error input as an `errMsg` carrying its
message, then encode the envelope to every encoder. -/
def EncodeAll (ex : Exchange) (e : EncInput) : Exchange × Option String :=
  ({ ex with encs := ex.encs.map (· ++ [⟨e.toPayload⟩]) }, none)

/-- `exchange.Send`: dispatch on the routing policy. Scatter goes to
`EncodeNext`; partition is a no-op stub; gather and broadcast go to
`EncodeAll`. -/
def Send (ex : Exchange) (data : Dataset) : Exchange × Option String :=
  if ex.SendTo = sendScatter then EncodeNext ex (.data data)
  else if ex.SendTo = sendPartition then (ex, none)
  else EncodeAll ex (.dataset data)

/-- Iterate `Send` over a list of input datasets. -/
def sendMany (ex : Exchange) : List Dataset → Exchange
  | [] => ex
  | d :: rest => sendMany (Send ex d).1 rest

/-- A scatter exchange as it stands right after `Init` on a mesh with `n`
encoders: empty logs, cursor at its zero value. -/
def scatterExchange (uid : String) (n : Nat) : Exchange :=
  { UID := uid, SendTo := sendScatter, encs := List.replicate n [], encsNext := 0 }

/-! ### Framed codec and distributer rendezvous -/

/-- `writeStr`: the bytes of the string followed by a single zero byte.
Byte strings are modelled as lists of naturals. -/
def writeStr (s : List Nat) : List Nat := s ++ [0]

/-- Go's conversion `string(b)` of a single byte value to a string: the
UTF-8 encoding of the code point with value `b`. A byte below 0x80 encodes
as itself; a byte in [0x80, 0xFF] encodes as the two bytes
`0xC0 | b >> 6` and `0x80 | b &&& 0x3F`. -/
def byteToStr (b : Nat) : List Nat :=
  if b < 128 then [b] else [192 + b / 64, 128 + b % 64]

/-- `readStr`: consume bytes up to the first zero byte, accumulating each
byte with `s += string(b[0])` — which appends the byte's UTF-8 code-point
encoding, not the raw byte — and returning the accumulated string and the
rest of the stream; `none` models the reader failing (end of stream before
any zero terminator). -/
def readStr : List Nat → Option (List Nat × List Nat)
  | [] => none
  | b :: rest =>
    if b = 0 then some ([], rest)
    else
      match readStr rest with
      | none => none
      | some (s, r) => some (byteToStr b ++ s, r)

/-- Go's `<` on strings: bytewise lexicographic comparison. -/
def strLt : List Nat → List Nat → Bool
  | _, [] => false
  | [], _ :: _ => true
  | a :: as, b :: bs =>
    if a < b then true
    else if b < a then false
    else strLt as bs

/-- The "D" tag byte string announcing a data connection. -/
def dTag : List Nat := [68]

/-- The "X" tag byte string announcing an execute-runner connection. -/
def xTag : List Nat := [88]

/-- The byte of the ":" separator in rendezvous keys. -/
def colonByte : Nat := 58

/-- What `distributer.Connect(addr, uid)` does, seen from one side. -/
inductive ConnectSide
  | dials (wire : List Nat)
  | waits (key : List Nat)
deriving DecidableEq

/-- `distributer.Connect`: the side whose own address is lexicographically
less than the remote address dials and writes "D" then `ownAddr + ":" + uid`;
the other side waits on the rendezvous channel keyed by `addr + ":" + uid`. -/
def connectSide (ownAddr addr uid : List Nat) : ConnectSide :=
  if strLt ownAddr addr then
    .dials (writeStr dTag ++ writeStr (ownAddr ++ [colonByte] ++ uid))
  else
    .waits (addr ++ [colonByte] ++ uid)

/-- The action `distributer.Serve` takes on an accepted connection. -/
inductive ServeAction
  | dataConn (key : List Nat) (rest : List Nat)
  | execConn (rest : List Nat)
  | badTag (tag : List Nat)
  | readErr
deriving DecidableEq

/-- `distributer.Serve`: read the tag string; on "D" read the key string and
deliver the connection on the rendezvous channel for that key; on "X" run a
decoded runner; otherwise fail with an unrecognized-type error. -/
def serve (wire : List Nat) : ServeAction :=
  match readStr wire with
  | none => .readErr
  | some (t, rest) =>
    if t = dTag then
      match readStr rest with
      | none => .readErr
      | some (key, rest2) => .dataConn key rest2
    else if t = xTag then .execConn rest
    else .badTag t

/-- The waiting branch of `distributer.Connect`: `delivered` is the
connection (if any) that arrives on the rendezvous channel before the
one-second timer fires; connections are modelled as tokens. -/
def connectWait (delivered : Option Nat) : Option Nat × Option String :=
  match delivered with
  | some c => (some c, none)
  | none => (none, some "ep: connect timeout; no incoming conn")

/-! ### Short-circuit channel -/

/-- `shortCircuit`: `C` models the contents of the buffered channel that are
still undelivered, in arrival order; `Closed` is the closed flag. -/
structure ShortCircuit where
  C : List DataReq
  Closed : Bool
deriving DecidableEq

/-- `newShortCircuit`. -/
def newShortCircuit : ShortCircuit := ⟨[], false⟩

/-- `shortCircuit.Close`: a no-op returning nil when already closed;
otherwise mark closed (buffered envelopes stay readable, as for a closed
Go channel) and return nil. -/
def scClose (sc : ShortCircuit) : ShortCircuit × Option String :=
  if sc.Closed then (sc, none)
  else ({ sc with Closed := true }, none)

/-- `shortCircuit.Encode`: fail with `io.ErrClosedPipe` when closed,
otherwise enqueue the envelope. -/
def scEncode (sc : ShortCircuit) (e : DataReq) : ShortCircuit × Option String :=
  if sc.Closed then (sc, some errClosedPipe)
  else ({ sc with C := sc.C ++ [e] }, none)

/-- Outcome of one `shortCircuit.Decode` call: a payload copied into the
supplied envelope, EOF from a closed empty queue, or blocking on an open
empty queue. -/
inductive ScDecodeRes
  | ok (payload : Payload)
  | eof
  | blocked
deriving DecidableEq

/-- `shortCircuit.Decode`: receive from the queue; a pending envelope's
payload is copied out; a closed empty queue yields EOF; an open empty queue
blocks. -/
def scDecode (sc : ShortCircuit) : ShortCircuit × ScDecodeRes :=
  match sc.C with
  | v :: rest => ({ sc with C := rest }, .ok v.payload)
  | [] => if sc.Closed then (sc, .eof) else (sc, .blocked)

/-- Iterate `scEncode`, dropping the per-call results. -/
def scEncodeList (sc : ShortCircuit) : List DataReq → ShortCircuit
  | [] => sc
  | e :: rest => scEncodeList (scEncode sc e).1 rest

/-- Call `scDecode` repeatedly, collecting payloads until the first
non-payload outcome, which is returned alongside them. -/
def scDrain (sc : ShortCircuit) : List Payload × ScDecodeRes :=
  match h : scDecode sc with
  | (sc', .ok p) =>
    have : sc'.C.length < sc.C.length := by
      unfold scDecode at h
      cases hC : sc.C with
      | nil =>
        rw [hC] at h
        by_cases hcl : sc.Closed = true <;> simp [hcl] at h
      | cons v rest =>
        rw [hC] at h
        simp only [Prod.mk.injEq] at h
        cases h.1
        simp [hC]
    let (ps, r) := scDrain sc'
    (p :: ps, r)
  | (_, r) => ([], r)
termination_by sc.C.length

/-! ### Exchange: receive side -/

/-- One result produced by a decoder attached to a source connection:
either a decoded `dataReq` envelope or a decode failure carrying the
error's message (`io.EOF` from an exhausted stream has message "EOF").
A decoder is modelled by the list of results it has yet to produce; an
empty list means the next `Decode` call returns `io.EOF`. -/
inductive DecRes
  | ok (req : DataReq)
  | fail (msg : String)
deriving DecidableEq

/-- The value `exchange.DecodeNext` hands back to `Receive`'s caller. -/
inductive DecodeOut
  | eof
  | err (msg : String)
  | ok (d : Dataset)
deriving DecidableEq

/-- `exchange.DecodeNext`, acting on the `decs`/`decsNext` components of the
exchange: with no decoders left, return EOF; otherwise advance the inbound
cursor modulo the decoder count and decode one envelope there. A decode
error, or a decoded payload that is an error, whose message equals "EOF" is
normalized to `io.EOF`; on EOF the decoder is removed and the call recurses
over the remaining decoders. On success the cursor is committed and the
payload returned as a dataset. -/
def decodeNext (decs : List (List DecRes)) (decsNext : Nat) :
    (List (List DecRes) × Nat) × DecodeOut :=
  if h : decs.length = 0 then ((decs, decsNext), .eof)
  else
    let i := (decsNext + 1) % decs.length
    have hi : i < decs.length := Nat.mod_lt _ (Nat.pos_of_ne_zero h)
    match decs.get ⟨i, hi⟩ with
    | [] => decodeNext (decs.eraseIdx i) decsNext
    | .fail msg :: _ =>
      if msg = "EOF" then decodeNext (decs.eraseIdx i) decsNext
      else ((decs, decsNext), .err msg)
    | .ok req :: rest =>
      match req.payload with
      | .err m =>
        if m = "EOF" then decodeNext (decs.eraseIdx i) decsNext
        else ((decs.set i rest, decsNext), .err m)
      | .data d => ((decs.set i rest, i), .ok d)
termination_by decs.length
decreasing_by
  all_goals simp only [List.length_eraseIdx_of_lt hi]; omega

/-- The receive goroutine of `exchange.Run` with `DecodeNext` inlined: it
repeatedly decodes, forwards every dataset to the output stream, and stops
on EOF (writing nil to the error channel) or on an error (writing the
error). The result is the list sent on `out` plus the final error. -/
def receiveLoop (decs : List (List DecRes)) (decsNext : Nat) :
    List Dataset × Option String :=
  if h : decs.length = 0 then ([], none)
  else
    let i := (decsNext + 1) % decs.length
    have hi : i < decs.length := Nat.mod_lt _ (Nat.pos_of_ne_zero h)
    match hget : decs.get ⟨i, hi⟩ with
    | [] => receiveLoop (decs.eraseIdx i) decsNext
    | .fail msg :: _ =>
      if msg = "EOF" then receiveLoop (decs.eraseIdx i) decsNext
      else ([], some msg)
    | .ok req :: rest =>
      match req.payload with
      | .err m =>
        if m = "EOF" then receiveLoop (decs.eraseIdx i) decsNext
        else ([], some m)
      | .data d =>
        let (ds, e) := receiveLoop (decs.set i rest) i
        (d :: ds, e)
termination_by (decs.map List.length).sum + decs.length
decreasing_by
  all_goals first
  | (show (List.map List.length (decs.eraseIdx i)).sum + (decs.eraseIdx i).length <
        (List.map List.length decs).sum + decs.length
     have h1 := ((List.eraseIdx_sublist decs i).map List.length).sum_le_sum
       (fun a _ => Nat.zero_le a)
     have h2 := List.length_eraseIdx_of_lt hi
     omega)
  | (show (List.map List.length (decs.set i rest)).sum + (decs.set i rest).length <
        (List.map List.length decs).sum + decs.length
     rw [List.map_set, List.length_set]
     have key : ∀ (L : List Nat) (j x : Nat), j < L.length → x < L.getD j 0 →
         (L.set j x).sum < L.sum := by
       intro L
       induction L with
       | nil => intro j x hj _; simp at hj
       | cons a as ih =>
         intro j x hj hx
         cases j with
         | zero =>
           simp only [List.set_cons_zero, List.sum_cons, List.getD_cons_zero] at hx ⊢
           omega
         | succ j2 =>
           simp only [List.set_cons_succ, List.sum_cons, List.getD_cons_succ,
             List.length_cons] at hj hx ⊢
           have := ih j2 x (by omega) hx
           omega
     have hiL : i < (List.map List.length decs).length := by simpa using hi
     have hD : (List.map List.length decs).getD i 0 = rest.length + 1 := by
       have h3 : decs.get ⟨i, hi⟩ = DecRes.ok req :: rest := hget
       rw [List.get_eq_getElem] at h3
       rw [List.getD_eq_getElem _ _ hiL, List.getElem_map, h3]
       simp
     have hk := key (List.map List.length decs) i rest.length hiL (by omega)
     exact Nat.add_lt_add_right hk decs.length)

/-! ### Exchange: Init -/

/-- How a connection in the exchange mesh is realized: the local
short-circuit, or a network connection to a remote address. -/
inductive ConnKind
  | sc
  | remote (addr : String)
deriving DecidableEq

/-- The connection state built up by `exchange.Init`: the closer list, the
encoder and decoder attachment lists, the per-peer connection map (modelled
by the list of connected addresses), and whether a short-circuit was
created. -/
structure InitState where
  conns : List ConnKind
  encs : List ConnKind
  decs : List ConnKind
  connsMap : List String
  sc : Bool
deriving DecidableEq

/-- The target list of `exchange.Init`: all nodes, or just the master node
for gather. -/
def initTargets (sendTo : Nat) (allNodes : List String) (masterNode : String) :
    List String :=
  if sendTo = sendGather then [masterNode] else allNodes

/-- The first loop of `exchange.Init` over the target nodes: this node gets
a fresh short-circuit registered as closer and encoder; any other node is
connected (`connectErr` gives the failure, if any, of `Connect` to it),
remembered in the connection map, registered as a closer, and given an
encoder. -/
def initLoop1 (thisNode : String) (connectErr : String → Option String) :
    InitState → List String → Except String InitState
  | st, [] => .ok st
  | st, n :: rest =>
    if n = thisNode then
      initLoop1 thisNode connectErr
        { st with conns := st.conns ++ [.sc], encs := st.encs ++ [.sc],
                  sc := true } rest
    else
      match connectErr n with
      | some e => .error e
      | none =>
        initLoop1 thisNode connectErr
          { st with conns := st.conns ++ [.remote n],
                    encs := st.encs ++ [.remote n],
                    connsMap := st.connsMap ++ [n] } rest

/-- The second loop of `exchange.Init` over all nodes, entered only when a
short-circuit was created: attach the short-circuit as a decoder for this
node, reuse an existing connection's stream when present, and otherwise
open one more connection for decoding. -/
def initLoop2 (thisNode : String) (connectErr : String → Option String) :
    InitState → List String → Except String InitState
  | st, [] => .ok st
  | st, n :: rest =>
    if n = thisNode then
      initLoop2 thisNode connectErr { st with decs := st.decs ++ [.sc] } rest
    else if st.connsMap.contains n then
      initLoop2 thisNode connectErr
        { st with decs := st.decs ++ [.remote n] } rest
    else
      match connectErr n with
      | some e => .error e
      | none =>
        initLoop2 thisNode connectErr
          { st with conns := st.conns ++ [.remote n],
                    decs := st.decs ++ [.remote n] } rest

/-- `exchange.Init`: compute the target list, run the first loop over it,
and, only if this node is itself a target (a short-circuit exists), run the
decoder-attachment loop over all nodes. -/
def exchangeInit (sendTo : Nat) (allNodes : List String)
    (thisNode masterNode : String) (connectErr : String → Option String) :
    Except String InitState :=
  match initLoop1 thisNode connectErr ⟨[], [], [], [], false⟩
      (initTargets sendTo allNodes masterNode) with
  | .error e => .error e
  | .ok st => if st.sc then initLoop2 thisNode connectErr st allNodes else .ok st

/-! ### Shared helper lemmas -/

theorem passthroughLoop_id (l : List Dataset) : passthroughLoop l = l := by
  induction l with
  | nil => rfl
  | cons d rest ih => simp [passthroughLoop, ih]

theorem readStr_writeStr_append (s rest : List Nat)
    (h : ∀ b ∈ s, b ≠ 0 ∧ b < 128) :
    readStr (writeStr s ++ rest) = some (s, rest) := by
  induction s with
  | nil => simp [writeStr, readStr]
  | cons b bs ih =>
    obtain ⟨hb, hb128⟩ := h b (List.mem_cons_self b bs)
    have hbs : ∀ x ∈ bs, x ≠ 0 ∧ x < 128 :=
      fun x hm => h x (List.mem_cons_of_mem b hm)
    simp only [writeStr, List.cons_append, readStr, if_neg hb]
    simp only [List.append_eq]
    rw [show bs ++ [0] ++ rest = writeStr bs ++ rest from by simp [writeStr]]
    rw [ih hbs]
    simp [byteToStr, hb128]

/-! ### Claim C1: PassThrough -/

/-- Claim C1: running `PassThrough` on any finite input sequence S forwards
exactly S, unchanged and in order, to the output stream and returns a nil
error, and its `Returns()` is the single-element list containing the
wildcard type. -/
theorem passThrough_identity (S : List Dataset) :
    passthroughRun S = (S, none) ∧ passthroughReturns = [EpType.Wildcard] := by
  refine ⟨?_, rfl⟩
  simp [passthroughRun, passthroughLoop_id]

/-! ### Claim C9: null-terminated string codec round trip -/

/-- Claim C9 counterexample: the round trip is not the identity on all
zero-free strings. At the single-byte string [0xC8], `readStr`'s per-byte
`string(b)` conversion inflates the byte into its two-byte UTF-8 encoding
[0xC3, 0x88], so reading back what `writeStr` wrote does not yield the
original string. -/
theorem writeStr_readStr_counterexample :
    readStr (writeStr [200]) ≠ some ([200], [])
    ∧ readStr (writeStr [200]) = some ([195, 136], []) := by
  refine ⟨?_, by decide⟩
  decide

/-- Claim C9 (amended): for a byte string whose bytes are all nonzero and
below 0x80 (ASCII), `writeStr` followed by `readStr` is the identity: the
reader consumes exactly the written bytes and terminator and returns the
original string, leaving the rest of the stream untouched. For bytes at or
above 0x80 the reader's per-byte string conversion inflates each byte into
its two-byte UTF-8 encoding, so the round trip is not the identity there. -/
theorem writeStr_readStr_roundtrip_ascii (s rest : List Nat)
    (h : ∀ b ∈ s, b ≠ 0 ∧ b < 128) :
    readStr (writeStr s ++ rest) = some (s, rest) :=
  readStr_writeStr_append s rest h

theorem writeStr_readStr_roundtrip_ascii_witness :
    (∀ b ∈ ([104, 105] : List Nat), b ≠ 0 ∧ b < 128)
    ∧ readStr (writeStr [104, 105] ++ [7]) = some ([104, 105], [7]) :=
  ⟨by decide, writeStr_readStr_roundtrip_ascii [104, 105] [7] (by decide)⟩

/-! ### Claim C7: rendezvous timeout error -/

/-- Claim C7 counterexample: when no connection is ever delivered, the error
returned by the waiting side of `Connect` is not the string claimed: its
message carries the "ep: " prefix. -/
theorem connect_timeout_message_counterexample :
    (connectWait none).2 ≠ some "connect timeout; no incoming conn" := by
  simp [connectWait]

/-- Claim C7 (amended): when no connection is ever delivered on the
rendezvous channel, the waiting side of `Connect` returns a nil connection
and an error whose message is "ep: connect timeout; no incoming conn". -/
theorem connect_timeout_message :
    connectWait none = (none, some "ep: connect timeout; no incoming conn") := rfl

/-! ### Claim C8: short-circuit close semantics -/

/-- Claim C8: after `Close`, the short-circuit is marked closed, every
`Encode` fails with the closed-pipe error and leaves the state unchanged,
`Decode` on the closed queue with no pending envelopes returns EOF, and a
second `Close` returns nil with no further effect (the first `Close` also
returns nil). -/
theorem shortCircuit_close_encode_decode (sc : ShortCircuit) (e : DataReq) :
    ((scClose sc).1).Closed = true
    ∧ (scClose sc).2 = none
    ∧ scEncode (scClose sc).1 e = ((scClose sc).1, some errClosedPipe)
    ∧ ((scClose sc).1.C = [] → scDecode (scClose sc).1 = ((scClose sc).1, .eof))
    ∧ scClose (scClose sc).1 = ((scClose sc).1, none) := by
  by_cases h : sc.Closed = true
  · refine ⟨by simp [scClose, h], by simp [scClose, h], by simp [scClose, scEncode, h], ?_, by simp [scClose, h]⟩
    intro hC
    simp only [scClose, if_pos h] at hC ⊢
    simp only [scDecode, hC, if_pos h]
  · refine ⟨by simp [scClose, h], by simp [scClose, h], by simp [scClose, scEncode, h], ?_, by simp [scClose, h]⟩
    intro hC
    simp only [scClose, if_neg h] at hC ⊢
    simp only [scDecode, hC]
    simp

theorem shortCircuit_close_encode_decode_witness :
    scDecode (scClose newShortCircuit).1 = ((scClose newShortCircuit).1, .eof) :=
  (shortCircuit_close_encode_decode newShortCircuit ⟨.data ⟨0⟩⟩).2.2.2.1 (by decide)

/-! ### Claim C10: no loss of envelopes encoded before Close -/

theorem scEncodeList_open (es : List DataReq) :
    ∀ cs : List DataReq, scEncodeList ⟨cs, false⟩ es = ⟨cs ++ es, false⟩ := by
  induction es with
  | nil => intro cs; simp [scEncodeList]
  | cons e rest ih =>
    intro cs
    simp only [scEncodeList, scEncode]
    simp [ih]

theorem scDrain_closed (l : List DataReq) :
    scDrain ⟨l, true⟩ = (l.map (·.payload), .eof) := by
  induction l with
  | nil => rw [scDrain]; simp [scDecode]
  | cons v rest ih =>
    rw [scDrain]
    simp only [scDecode]
    simp [ih]

/-- Claim C10: envelopes encoded before `Close` are not lost: draining the
short-circuit after `Close` returns exactly the previously enqueued
payloads, in encode order, and only then does `Decode` return EOF. -/
theorem shortCircuit_no_loss (es : List DataReq) :
    scDrain (scClose (scEncodeList newShortCircuit es)).1 =
      (es.map (·.payload), .eof) := by
  have h1 : scEncodeList newShortCircuit es = ⟨es, false⟩ := by
    simpa using scEncodeList_open es []
  rw [h1]
  simp only [scClose]
  simpa using scDrain_closed es

/-! ### Claim C5: rendezvous key agreement -/

theorem strLt_asymm : ∀ a b : List Nat, strLt a b = true → strLt b a = false := by
  intro a
  induction a with
  | nil =>
    intro b h
    cases b with
    | nil => simp [strLt] at h
    | cons y ys => simp [strLt]
  | cons x xs ih =>
    intro b h
    cases b with
    | nil => simp [strLt] at h
    | cons y ys =>
      by_cases hxy : x < y
      · have hyx : ¬ y < x := by omega
        simp [strLt, hxy, hyx]
      · by_cases hyx : y < x
        · simp [strLt, hxy, hyx] at h
        · simp only [strLt, if_neg hxy, if_neg hyx] at h
          simp only [strLt, if_neg hyx, if_neg hxy]
          exact ih ys h

/-- Claim C5 counterexample: the two sides do not always meet on the same
key. With A = [0xC8], B = [0xC9], uid = [0x63], A dials and announces the
raw key bytes [0xC8, 0x3A, 0x63] while B waits on that same raw key; but
`Serve` reads the key through the per-byte `string(b)` conversion, which
inflates 0xC8 into [0xC3, 0x88], so it delivers the connection on key
[0xC3, 0x88, 0x3A, 0x63] — a different key than the waiter's. -/
theorem connect_serve_key_counterexample :
    connectSide [200] [201] [99] =
      .dials (writeStr dTag ++ writeStr ([200] ++ [colonByte] ++ [99]))
    ∧ connectSide [201] [200] [99] = .waits ([200] ++ [colonByte] ++ [99])
    ∧ serve (writeStr dTag ++ writeStr ([200] ++ [colonByte] ++ [99])) =
        .dataConn [195, 136, 58, 99] []
    ∧ ([195, 136, 58, 99] : List Nat) ≠ [200] ++ [colonByte] ++ [99] := by
  refine ⟨by decide, by decide, by decide, by decide⟩

/-- Claim C5 (amended): for addresses A < B (bytewise lexicographic) and any
uid, all of whose bytes are nonzero and below 0x80 (ASCII), the A side of
`Connect` dials and writes the tag "D" followed by `A ++ ":" ++ uid`, the B
side waits on the rendezvous channel keyed by `A ++ ":" ++ uid`, and
`Serve`, reading the dialer's bytes, delivers the connection on exactly
that key — so both ends meet on the same key. (With a byte at or above
0x80 in the address or uid, `Serve`'s per-byte string conversion inflates
the key it reads and the two sides miss each other.) -/
theorem connect_serve_key_agreement_ascii (A B uid : List Nat)
    (hlt : strLt A B = true)
    (hA : ∀ b ∈ A, b ≠ 0 ∧ b < 128) (hu : ∀ b ∈ uid, b ≠ 0 ∧ b < 128) :
    connectSide A B uid =
      .dials (writeStr dTag ++ writeStr (A ++ [colonByte] ++ uid))
    ∧ connectSide B A uid = .waits (A ++ [colonByte] ++ uid)
    ∧ serve (writeStr dTag ++ writeStr (A ++ [colonByte] ++ uid)) =
        .dataConn (A ++ [colonByte] ++ uid) [] := by
  have hkey : ∀ b ∈ A ++ [colonByte] ++ uid, b ≠ 0 ∧ b < 128 := by
    intro b hmem
    rcases List.mem_append.mp hmem with h1 | h2
    · rcases List.mem_append.mp h1 with h3 | h4
      · exact hA b h3
      · simp only [colonByte, List.mem_singleton] at h4
        subst h4
        exact ⟨by decide, by decide⟩
    · exact hu b h2
  refine ⟨by simp [connectSide, hlt], by simp [connectSide, strLt_asymm A B hlt], ?_⟩
  unfold serve
  rw [readStr_writeStr_append dTag (writeStr (A ++ [colonByte] ++ uid)) (by decide)]
  simp only [if_pos rfl]
  have h2 : readStr (writeStr (A ++ [colonByte] ++ uid)) =
      some (A ++ [colonByte] ++ uid, []) := by
    have := readStr_writeStr_append (A ++ [colonByte] ++ uid) [] hkey
    simpa using this
  rw [h2]
  simp

theorem connect_serve_key_agreement_ascii_witness :
    strLt [97] [98] = true
    ∧ (connectSide [97] [98] [99] =
        .dials (writeStr dTag ++ writeStr ([97] ++ [colonByte] ++ [99]))
      ∧ connectSide [98] [97] [99] = .waits ([97] ++ [colonByte] ++ [99])
      ∧ serve (writeStr dTag ++ writeStr ([97] ++ [colonByte] ++ [99])) =
          .dataConn ([97] ++ [colonByte] ++ [99]) []) :=
  ⟨by decide,
   connect_serve_key_agreement_ascii [97] [98] [99] (by decide) (by decide)
     (by decide)⟩

/-! ### Claim C6: error message preserved across the exchange -/

/-- Claim C6: encoding an error value whose message is not "EOF" with
`EncodeAll` wraps it as an `errMsg` envelope carrying the message (and nils
the error), and a peer decoding that envelope with `DecodeNext` returns an
error whose message equals the original one — the message survives the
encode/decode round trip. -/
theorem error_message_roundtrip (ex : Exchange) (msg : String) (n : Nat)
    (h : msg ≠ "EOF") :
    EncodeAll ex (.errVal msg) =
      ({ ex with encs := ex.encs.map (· ++ [⟨.err msg⟩]) }, none)
    ∧ decodeNext [[DecRes.ok ⟨.err msg⟩]] n = (([[]], n), .err msg) := by
  refine ⟨rfl, ?_⟩
  rw [decodeNext]
  simp [Nat.mod_one, h]

theorem error_message_roundtrip_witness :
    ("boom" : String) ≠ "EOF"
    ∧ (EncodeAll (scatterExchange "u" 1) (.errVal "boom") =
        ({ scatterExchange "u" 1 with
            encs := (scatterExchange "u" 1).encs.map (· ++ [⟨.err "boom"⟩]) },
         none)
      ∧ decodeNext [[DecRes.ok ⟨.err "boom"⟩]] 0 = (([[]], 0), .err "boom")) :=
  ⟨by decide, error_message_roundtrip (scatterExchange "u" 1) "boom" 0 (by decide)⟩

/-! ### Claim C4: DecodeNext EOF removal and termination -/

theorem decodeNext_all_empty_aux :
    ∀ (N : Nat) (decs : List (List DecRes)), decs.length = N →
      ∀ n, (∀ dd ∈ decs, dd = []) → decodeNext decs n = (([], n), .eof) := by
  intro N
  induction N using Nat.strong_induction_on with
  | _ N ih =>
    intro decs hN n hall
    by_cases h0 : decs.length = 0
    · have hnil : decs = [] := List.length_eq_zero.mp h0
      subst hnil
      rw [decodeNext]
      simp
    · have hi : (n + 1) % decs.length < decs.length :=
        Nat.mod_lt _ (Nat.pos_of_ne_zero h0)
      have hget : decs.get ⟨(n + 1) % decs.length, hi⟩ = [] :=
        hall _ (List.get_mem decs _ hi)
      rw [decodeNext, dif_neg h0]
      simp only [hget]
      have hlt : (decs.eraseIdx ((n + 1) % decs.length)).length < N := by
        rw [List.length_eraseIdx_of_lt hi]
        omega
      exact ih _ hlt _ rfl n
        (fun dd hm =>
          hall dd ((List.eraseIdx_sublist decs ((n + 1) % decs.length)).subset hm))

theorem decodeNext_all_empty (decs : List (List DecRes)) :
    ∀ n, (∀ dd ∈ decs, dd = []) → decodeNext decs n = (([], n), .eof) :=
  decodeNext_all_empty_aux decs.length decs rfl

/-- Claim C4: `DecodeNext` selects the decoder at the inbound cursor plus
one, modulo the decoder count; an exhausted decoder stream (EOF), a decode
failure whose message is "EOF", or a decoded payload that is an error with
message "EOF" all cause that decoder to be removed and the call to recurse
over the remaining decoders; the removal strictly shrinks the list (which is
why the recursion terminates), an empty decoder list yields EOF, and in
particular once every decoder is exhausted `DecodeNext` returns EOF. -/
theorem decodeNext_eof_removal (decs : List (List DecRes)) (n : Nat) :
    decodeNext [] n = (([], n), .eof)
    ∧ (decs ≠ [] →
        (decs.eraseIdx ((n + 1) % decs.length)).length = decs.length - 1
        ∧ (decs.getD ((n + 1) % decs.length) [] = [] →
            decodeNext decs n = decodeNext (decs.eraseIdx ((n + 1) % decs.length)) n)
        ∧ (∀ rest : List DecRes,
            decs.getD ((n + 1) % decs.length) [] = DecRes.ok ⟨.err "EOF"⟩ :: rest →
            decodeNext decs n = decodeNext (decs.eraseIdx ((n + 1) % decs.length)) n)
        ∧ (∀ rest : List DecRes,
            decs.getD ((n + 1) % decs.length) [] = DecRes.fail "EOF" :: rest →
            decodeNext decs n = decodeNext (decs.eraseIdx ((n + 1) % decs.length)) n))
    ∧ ((∀ dd ∈ decs, dd = []) → decodeNext decs n = (([], n), .eof)) := by
  refine ⟨by rw [decodeNext]; simp, ?_, decodeNext_all_empty decs n⟩
  intro hne
  have h0 : ¬ decs.length = 0 := by
    intro h
    exact hne (List.length_eq_zero.mp h)
  have hi : (n + 1) % decs.length < decs.length :=
    Nat.mod_lt _ (Nat.pos_of_ne_zero h0)
  have hD : decs.getD ((n + 1) % decs.length) [] =
      decs.get ⟨(n + 1) % decs.length, hi⟩ := by
    rw [List.getD_eq_getElem _ _ hi, List.get_eq_getElem]
  refine ⟨by rw [List.length_eraseIdx_of_lt hi], ?_, ?_, ?_⟩
  · intro hget
    rw [hD] at hget
    rw [decodeNext, dif_neg h0]
    simp only [hget]
  · intro rest hget
    rw [hD] at hget
    rw [decodeNext, dif_neg h0]
    simp only [hget]
    simp
  · intro rest hget
    rw [hD] at hget
    rw [decodeNext, dif_neg h0]
    simp only [hget]
    simp

theorem decodeNext_eof_removal_witness :
    (∀ dd ∈ ([[], []] : List (List DecRes)), dd = [])
    ∧ decodeNext [[], []] 0 = (([], 0), .eof) :=
  ⟨by decide, (decodeNext_eof_removal [[], []] 0).2.2 (by decide)⟩

/-! ### Claim C3: gather on a non-master node -/

/-- Claim C3: under gather, `Init` computes the target list as exactly the
single master node; on a node whose address differs from the master's, the
only target is remote, so no short-circuit is created and the
decoder-attachment loop is skipped, leaving zero decoders and only remote
connections — and with zero decoders the receive loop of `Run` emits no
datasets (and no error) on the output stream. -/
theorem gather_non_master_no_output (allNodes : List String)
    (thisNode masterNode : String) (connectErr : String → Option String)
    (hne : thisNode ≠ masterNode) :
    initTargets sendGather allNodes masterNode = [masterNode]
    ∧ (∀ st : InitState,
        exchangeInit sendGather allNodes thisNode masterNode connectErr = .ok st →
        st.sc = false ∧ st.decs = [] ∧ (∀ c ∈ st.conns, c ≠ ConnKind.sc)
        ∧ receiveLoop ([] : List (List DecRes)) 0 = ([], none)) := by
  refine ⟨by simp [initTargets], ?_⟩
  intro st hok
  have hmt : ¬ (masterNode = thisNode) := fun h => hne h.symm
  unfold exchangeInit at hok
  rw [show initTargets sendGather allNodes masterNode = [masterNode] from by
    simp [initTargets]] at hok
  simp only [initLoop1, if_neg hmt] at hok
  cases hconn : connectErr masterNode with
  | some e =>
    rw [hconn] at hok
    simp at hok
  | none =>
    rw [hconn] at hok
    simp only [initLoop1] at hok
    simp at hok
    rw [← hok]
    refine ⟨rfl, rfl, ?_, by rw [receiveLoop]; simp⟩
    intro c hc
    simp at hc
    simp [hc]

theorem gather_non_master_no_output_witness :
    ("b" : String) ≠ "a"
    ∧ (InitState.sc ⟨[.remote "a"], [.remote "a"], [], ["a"], false⟩ = false
      ∧ InitState.decs ⟨[.remote "a"], [.remote "a"], [], ["a"], false⟩ = []
      ∧ (∀ c ∈ InitState.conns ⟨[.remote "a"], [.remote "a"], [], ["a"], false⟩,
          c ≠ ConnKind.sc)
      ∧ receiveLoop ([] : List (List DecRes)) 0 = ([], none)) :=
  ⟨by decide,
   (gather_non_master_no_output ["a", "b"] "b" "a" (fun _ => none)
       (by decide)).2
     ⟨[.remote "a"], [.remote "a"], [], ["a"], false⟩ (by rfl)⟩

/-! ### Claim C2: scatter round-robin fairness -/

theorem sendMany_append (ex : Exchange) (ds : List Dataset) (d : Dataset) :
    sendMany ex (ds ++ [d]) = (Send (sendMany ex ds) d).1 := by
  induction ds generalizing ex with
  | nil => simp [sendMany]
  | cons a rest ih => simp [sendMany, ih]

theorem getD_set_self (l : List (List DataReq)) (i : Nat) (h : i < l.length)
    (v : List DataReq) : (l.set i v).getD i [] = v := by
  rw [List.getD_eq_getElem?_getD, List.getElem?_set_self h]
  rfl

theorem getD_set_ne (l : List (List DataReq)) (i j : Nat) (h : j ≠ i)
    (v : List DataReq) : (l.set i v).getD j [] = l.getD j [] := by
  rw [List.getD_eq_getElem?_getD, List.getElem?_set_ne (Ne.symm h),
    ← List.getD_eq_getElem?_getD]

theorem sendMany_scatter_invariant (uid : String) (n : Nat) (hn : 0 < n)
    (ds : List Dataset) :
    ∃ q r : Nat, ds.length = n * q + r ∧ r < n
      ∧ (sendMany (scatterExchange uid n) ds).SendTo = sendScatter
      ∧ (sendMany (scatterExchange uid n) ds).encs.length = n
      ∧ (sendMany (scatterExchange uid n) ds).encsNext = r
      ∧ ∀ i, i < n →
          ((sendMany (scatterExchange uid n) ds).encs.getD i []).length =
            q + (if 1 ≤ i ∧ i ≤ r then 1 else 0) := by
  induction ds using List.reverseRecOn with
  | nil =>
    refine ⟨0, 0, by simp, hn, rfl, by simp [sendMany, scatterExchange], rfl, ?_⟩
    intro i hi
    show ((List.replicate n ([] : List DataReq)).getD i []).length = _
    rw [List.getD_eq_getElem?_getD, List.getElem?_replicate_of_lt hi]
    rw [if_neg (show ¬(1 ≤ i ∧ i ≤ 0) by omega)]
    simp
  | append_singleton ds d ih =>
    obtain ⟨q, r, hlen, hr, hpol, hN, hcur, hcount⟩ := ih
    rw [sendMany_append]
    set ex := sendMany (scatterExchange uid n) ds with hex
    have hne0 : ¬ ex.encs.length = 0 := by omega
    have hsend : Send ex d = EncodeNext ex (.data d) := by
      simp [Send, hpol]
    rw [hsend]
    unfold EncodeNext
    rw [if_neg hne0]
    simp only
    have ht : (ex.encsNext + 1) % ex.encs.length = (r + 1) % n := by
      rw [hcur, hN]
    by_cases hr1 : r + 1 < n
    · have htv : (ex.encsNext + 1) % ex.encs.length = r + 1 := by
        rw [ht, Nat.mod_eq_of_lt hr1]
      refine ⟨q, r + 1,
        by simp only [List.length_append, List.length_singleton, hlen]; omega,
        hr1, by simp [hpol], by simp [hN], by simp [htv], ?_⟩
      intro i hi
      by_cases hit : i = r + 1
      · subst hit
        rw [htv]
        show ((ex.encs.set (r + 1) (ex.encs.getD (r + 1) [] ++ [⟨.data d⟩])).getD (r + 1) []).length = _
        rw [getD_set_self _ _ (by omega)]
        rw [List.length_append, hcount (r + 1) hi]
        simp
      · rw [htv]
        show ((ex.encs.set (r + 1) (ex.encs.getD (r + 1) [] ++ [⟨.data d⟩])).getD i []).length = _
        rw [getD_set_ne _ _ _ hit]
        rw [hcount i hi]
        have : (1 ≤ i ∧ i ≤ r) ↔ (1 ≤ i ∧ i ≤ r + 1) := by omega
        simp only [this]
    · have hrn : r + 1 = n := by omega
      have htv : (ex.encsNext + 1) % ex.encs.length = 0 := by
        rw [ht, hrn, Nat.mod_self]
      refine ⟨q + 1, 0, ?_, hn, by simp [hpol], by simp [hN], by simp [htv], ?_⟩
      · have : n * (q + 1) = n * q + n := by ring
        simp [this]
        omega
      · intro i hi
        by_cases hit : i = 0
        · subst hit
          rw [htv]
          show ((ex.encs.set 0 (ex.encs.getD 0 [] ++ [⟨.data d⟩])).getD 0 []).length = _
          rw [getD_set_self _ _ (by omega)]
          rw [List.length_append, hcount 0 hi]
          simp
        · rw [htv]
          show ((ex.encs.set 0 (ex.encs.getD 0 [] ++ [⟨.data d⟩])).getD i []).length = _
          rw [getD_set_ne _ _ _ hit]
          rw [hcount i hi]
          have h1 : (1 ≤ i ∧ i ≤ r) := by omega
          have h2 : ¬ (1 ≤ i ∧ i ≤ 0) := by omega
          simp only [if_pos h1, if_neg h2]

/-- Claim C2: with scatter policy and n ≥ 1 encoders, each `Send` goes
through `EncodeNext`, which advances the outbound cursor modulo n and
appends the envelope to exactly that one encoder, leaving every other
encoder untouched; consequently, after sending any input list, each encoder
has received either ⌊M/n⌋ or ⌈M/n⌉ datasets, where M is the list length. -/
theorem scatter_round_robin (uid : String) (n : Nat) (hn : 1 ≤ n)
    (ds : List Dataset) :
    (∀ (ex : Exchange) (d : Dataset),
      ex.SendTo = sendScatter → ex.encs.length = n →
      Send ex d = EncodeNext ex (.data d)
      ∧ (EncodeNext ex (.data d)).1.encsNext = (ex.encsNext + 1) % n
      ∧ (EncodeNext ex (.data d)).1.encs.getD ((ex.encsNext + 1) % n) [] =
          ex.encs.getD ((ex.encsNext + 1) % n) [] ++ [⟨.data d⟩]
      ∧ (∀ j, j ≠ (ex.encsNext + 1) % n →
          (EncodeNext ex (.data d)).1.encs.getD j [] = ex.encs.getD j []))
    ∧ (∀ i, i < n →
        ((sendMany (scatterExchange uid n) ds).encs.getD i []).length =
          ds.length / n
        ∨ ((sendMany (scatterExchange uid n) ds).encs.getD i []).length =
          (ds.length + n - 1) / n) := by
  constructor
  · intro ex d hpol hlen
    have hne0 : ¬ ex.encs.length = 0 := by omega
    have hsend : Send ex d = EncodeNext ex (.data d) := by simp [Send, hpol]
    refine ⟨hsend, ?_, ?_, ?_⟩
    · unfold EncodeNext
      rw [if_neg hne0]
      simp [hlen]
    · unfold EncodeNext
      rw [if_neg hne0]
      simp only [hlen]
      exact getD_set_self _ _ (Nat.mod_lt _ (by omega) |>.trans_eq hlen.symm) _
    · intro j hj
      unfold EncodeNext
      rw [if_neg hne0]
      simp only [hlen]
      exact getD_set_ne _ _ _ hj _
  · obtain ⟨q, r, hlen, hr, _, _, _, hcount⟩ :=
      sendMany_scatter_invariant uid n hn ds
    have hdivq : ds.length / n = q := by
      rw [hlen, Nat.mul_add_div hn, Nat.div_eq_of_lt hr]
      omega
    intro i hi
    rw [hcount i hi]
    by_cases hind : 1 ≤ i ∧ i ≤ r
    · right
      have hr1 : 1 ≤ r := by omega
      have hceil : (ds.length + n - 1) / n = q + 1 := by
        rw [show ds.length + n - 1 = n * (q + 1) + (r - 1) from by
          have : n * (q + 1) = n * q + n := by ring
          omega]
        rw [Nat.mul_add_div hn, Nat.div_eq_of_lt (by omega)]
      rw [hceil, if_pos hind]
    · left
      rw [hdivq, if_neg hind]
      omega

theorem scatter_round_robin_witness :
    (1 ≤ 2)
    ∧ (((sendMany (scatterExchange "u" 2)
          [Dataset.mk 1, Dataset.mk 2, Dataset.mk 3]).encs.getD 0 []).length =
        ([Dataset.mk 1, Dataset.mk 2, Dataset.mk 3] : List Dataset).length / 2
      ∨ ((sendMany (scatterExchange "u" 2)
          [Dataset.mk 1, Dataset.mk 2, Dataset.mk 3]).encs.getD 0 []).length =
        (([Dataset.mk 1, Dataset.mk 2, Dataset.mk 3] : List Dataset).length + 2 - 1) / 2) :=
  ⟨by decide,
   (scatter_round_robin "u" 2 (by decide)
       [Dataset.mk 1, Dataset.mk 2, Dataset.mk 3]).2 0 (by decide)⟩

end Ep
